import Mathlib

/-!
# custom-sd: the discovery refresh cycle

A shallow embedding of `src/main.go` (`parseServiceNodes` and `Run`) and the
properties of its specification.

Modelling conventions
* A Go `map[string]T` is an `AList`: an association list with distinct keys.
  The order of `entries` stands for the order in which a `range` loop visits
  the map (unspecified in Go); every statement below holds for every order.
* Reading a missing key yields the zero value of the element type.
* A runtime panic is the `Except.error` case of a result; a Go `error` return
  value is an `Option String` (`none` is `nil`).
* Logging and sleeping have no effect on the state and are left out.
-/

namespace CustomSD

/-! ## Library constants and functions used by the source -/

/-- Constant `model.MetaLabelPrefix` of `github.com/prometheus/common/model`. -/
def MetaLabelPrefix : String := "__meta_"

/-- Constant `model.AddressLabel` of `github.com/prometheus/common/model`. -/
def AddressLabel : String := "__address__"

/-- Type `model.LabelSet`: a map from label names to label values. -/
abbrev LabelSet := AList (fun _ : String => String)

/-- Type `map[string]string` of one `Metric` field. -/
abbrev MetricRecord := AList (fun _ : String => String)

/-- Type `map[string]bool` of `oldSourceList` and `newSourceList`. -/
abbrev SourceList := AList (fun _ : String => Bool)

/-- Go map read `m[k]` on a `map[string]string`: the empty string when absent. -/
def getStr (m : MetricRecord) (k : String) : String :=
  (m.lookup k).getD ""

/-- Go map read `m[k]` on a `map[string]bool`: `false` when absent. -/
def getBool (m : SourceList) (k : String) : Bool :=
  (m.lookup k).getD false

/-- Worker of `Split`: `cur` holds the characters of the piece being read. -/
def splitChars (sep : Char) : List Char → List Char → List (List Char)
  | [], cur => [cur]
  | c :: cs, cur =>
    if c = sep then cur :: splitChars sep cs [] else splitChars sep cs (cur ++ [c])

/-- Function `strings.Split(s, sep)` for a one-character separator: the pieces
of `s` between the occurrences of `sep`. -/
def Split (s : String) (sep : Char) : List String :=
  (splitChars sep s.data []).map String.mk

/-- Type `targetgroup.Group`. -/
structure Group where
  Targets : List LabelSet
  Labels : LabelSet
  Source : String
deriving DecidableEq

/-! ## `parseServiceNodes` -/

/-- One pass of the loop body of `parseServiceNodes` (lines 79-85). -/
def addLabel (labels : LabelSet) (k v : String) : LabelSet :=
  if k = "__name__" then labels.insert k v
  else labels.insert (MetaLabelPrefix ++ k) v

/-- The loop of lines 79-85 over the entries of the record. -/
def buildLabels (metric : MetricRecord) (labels : LabelSet) : LabelSet :=
  metric.entries.foldl (fun ls kv => addLabel ls kv.1 kv.2) labels

/-- Function `discovery.parseServiceNodes` (lines 68-89). The result is the
pair of the returned group and the returned error; `Except.error` is a panic
of the index expression `[0]`. -/
def parseServiceNodes (metric : MetricRecord) (name : String) :
    Except String (Group × Option String) :=
  let tgroup : Group := { Source := name, Labels := ∅, Targets := [] }
  match Split (getStr metric "instance") ':' with
  | [] => .error "index out of range [0] with length 0"
  | first :: _ =>
    let inst := first ++ ":" ++ getStr metric "exporter_port"
    let tgroup := { tgroup with Source := inst }
    let target : LabelSet := AList.singleton AddressLabel inst
    let tgroup := { tgroup with Labels := buildLabels metric tgroup.Labels }
    let tgroup := { tgroup with Targets := tgroup.Targets ++ [target] }
    .ok (tgroup, none)

/-- A Go map literal: later entries overwrite earlier ones. -/
def mapOf {β : Type} (l : List (String × β)) : AList (fun _ : String => β) :=
  l.foldl (fun m kv => m.insert kv.1 kv.2) ∅

/-! ## The refresh cycle of `Run` -/

/-- One element of `Data.Result` in `MetricLabels` (lines 42-45). The `Value`
field holds undecoded JSON values; `Run` never reads it. -/
structure ResultRow where
  Metric : MetricRecord
  Value : List String
deriving DecidableEq

/-- Field `Data` of `MetricLabels` (lines 41-47). -/
structure ResultData where
  Result : List ResultRow
  ResultType : String
deriving DecidableEq

/-- Type `MetricLabels` (lines 40-49). -/
structure MetricLabels where
  Data : ResultData
  Status : String
deriving DecidableEq

/-- Type `discovery` (lines 60-66), without the logger. -/
structure discovery where
  address : String
  refreshInterval : Int
  roleLabel : String
  oldSourceList : SourceList
deriving DecidableEq

/-- Type `sdConfig` (lines 52-56). -/
structure sdConfig where
  Address : String
  RoleLabel : String
  RefreshInterval : Int
deriving DecidableEq

/-- Function `newDiscovery` (lines 169-178): the discovery and a nil error. -/
def newDiscovery (conf : sdConfig) : discovery × Option String :=
  let cd : discovery :=
    { address := conf.Address, refreshInterval := conf.RefreshInterval,
      roleLabel := conf.RoleLabel, oldSourceList := ∅ }
  (cd, none)

/-- One call `dec.Decode(&metrics)` as the loop of lines 127-134 sees it: the
error it returns and the value of the pointer `metrics` after the call
(`none` is the nil pointer). -/
structure DecodeCall where
  err : Option String
  metrics : Option MetricLabels
deriving DecidableEq

/-- The response body as the decoder presents it to the loop of lines 127-134.
* `eof`: `dec.More()` is false;
* `call c rest`: `dec.More()` is true, `dec.Decode` behaves as `c`, and the
  decoder goes on with `rest`;
* `stuck e`: `dec.More()` is true and stays true, every `dec.Decode` returns
  the error `e` without consuming input (a syntax error of the decoder). -/
inductive Body where
  | eof : Body
  | call (c : DecodeCall) (rest : Body) : Body
  | stuck (e : String) : Body
deriving DecidableEq

/-- What the network gives one iteration of `Run`. -/
inductive Response where
  | requestError (e : String) : Response
  | transportError (e : String) : Response
  | body (b : Body) : Response
deriving DecidableEq

/-- Whether some `dec.Decode` call of the body returns an error. -/
def Body.decodeFails : Body → Bool
  | .eof => false
  | .call c rest => c.err.isSome || rest.decodeFails
  | .stuck _ => true

/-- The loop `for dec.More() { ... }` of lines 127-134; the `continue` of
line 132 goes on with this loop. The result is the value of `metrics` when the
loop is left, `none` when it is never left. -/
def decodeLoop : Body → Option MetricLabels → Option (Option MetricLabels)
  | .eof, metrics => some metrics
  | .call c rest, _ => decodeLoop rest c.metrics
  | .stuck _, _ => none

/-- The loop of lines 136-145 over the decoded records. A returned error
leaves the loop (`break`); `Except.error` is a panic of `parseServiceNodes`. -/
def parseLoop (name : String) :
    List ResultRow → List Group → SourceList → Except String (List Group × SourceList)
  | [], tgs, newSourceList => .ok (tgs, newSourceList)
  | v :: vs, tgs, newSourceList =>
    match parseServiceNodes v.Metric name with
    | .error p => .error p
    | .ok (_, some _) => .ok (tgs, newSourceList)
    | .ok (tg, none) => parseLoop name vs (tgs ++ [tg]) (newSourceList.insert tg.Source true)

/-- The loop of lines 147-153: a group with only a `Source` for every key of
`oldSourceList` that reads false in `newSourceList`. -/
def tombstoneLoop (oldSourceList newSourceList : SourceList) (tgs : List Group) : List Group :=
  oldSourceList.keys.foldl
    (fun tgs key =>
      if !getBool newSourceList key then tgs ++ [{ Source := key, Targets := [], Labels := ∅ }]
      else tgs)
    tgs

/-- How one iteration of the loop of `Run` ends. -/
inductive Exit where
  | continued : Exit
  | waiting : Exit
  | panicked (msg : String) : Exit
  | hung : Exit
deriving DecidableEq

/-- The effect of one iteration of the loop of `Run`: the state afterwards,
the batch sent on `ch` (if one is sent), and where control goes:
`continued` for a `continue` of lines 106 and 113, `waiting` for the `select`
of line 160, `panicked` for a runtime panic, `hung` when the loop of lines
127-134 is never left. -/
structure CycleResult where
  d : discovery
  sent : Option (List Group)
  exit : Exit
deriving DecidableEq

/-- One iteration of the loop of `Run` (lines 96-158), up to the `select`. -/
def runCycle (d : discovery) : Response → CycleResult
  | .requestError _ => { d := d, sent := none, exit := .continued }
  | .transportError _ => { d := d, sent := none, exit := .continued }
  | .body b =>
    -- the error of `http.Get`, nil on this path; the `err` of lines 128 and
    -- 138 are new variables of the inner blocks
    let err : Option String := none
    let tgs : List Group := []
    let name := d.roleLabel
    let newSourceList : SourceList := ∅
    match decodeLoop b none with
    | none => { d := d, sent := none, exit := .hung }
    | some none =>
      { d := d, sent := none,
        exit := .panicked "invalid memory address or nil pointer dereference" }
    | some (some metrics) =>
      match parseLoop name metrics.Data.Result tgs newSourceList with
      | .error p => { d := d, sent := none, exit := .panicked p }
      | .ok (tgs, newSourceList) =>
        let tgs := tombstoneLoop d.oldSourceList newSourceList tgs
        let d := { d with oldSourceList := newSourceList }
        { d := d, sent := if err.isNone then some tgs else none, exit := .waiting }

/-- A query result with the given records. -/
def resultOf (records : List MetricRecord) : MetricLabels :=
  { Data := { Result := records.map (fun m => { Metric := m, Value := [] }),
              ResultType := "vector" },
    Status := "success" }

/-- A body with one JSON value that decodes without error. -/
def okBody (m : MetricLabels) : Body :=
  .call { err := none, metrics := some m } .eof

/-- The result that the decode loop leaves for the rest of the iteration, when
the response has a body, the loop is left and `metrics` is not nil. -/
def decoded : Response → Option MetricLabels
  | .body b => (decodeLoop b none).join
  | _ => none

/-- Successive iterations of the loop of `Run`, one per response, for as long
as the loop goes on (a `continue`, or a tick taken at the `select`). -/
def runCycles : discovery → List Response → List CycleResult
  | _, [] => []
  | d, r :: rs =>
    let c := runCycle d r
    c :: (match c.exit with
      | .continued => runCycles c.d rs
      | .waiting => runCycles c.d rs
      | .panicked _ => []
      | .hung => [])

/-! ## Definitions that follow the words of the specification -/

/-- The identity of a record as the specification words it: the part of the
`instance` value before its first `:`, then `:`, then the `exporter_port`
value. -/
def specSource (metric : MetricRecord) : String :=
  String.mk ((getStr metric "instance").data.takeWhile (fun c => c != ':')) ++ ":" ++
    getStr metric "exporter_port"

/-- The label name under which the specification files the record key `k`. -/
def specLabelName (k : String) : String :=
  if k = "__name__" then "__name__" else MetaLabelPrefix ++ k

/-- The group that `parseServiceNodes` returns for a row, when it returns one
without an error. -/
def groupOf (name : String) (v : ResultRow) : Option Group :=
  match parseServiceNodes v.Metric name with
  | .ok (tg, none) => some tg
  | _ => none

/-- The groups that `parseServiceNodes` builds from the rows of a result. -/
def aliveGroups (name : String) (m : MetricLabels) : List Group :=
  m.Data.Result.filterMap (groupOf name)

/-- The identities that the groups built from a result carry. -/
def aliveSources (name : String) (m : MetricLabels) : List String :=
  (aliveGroups name m).map (fun g => g.Source)

/-- A group with a `Source` and nothing else, as line 149 builds it. -/
def tombstone (key : String) : Group :=
  { Source := key, Targets := [], Labels := ∅ }

/-! ## The control flow of `Run` as a machine -/

/-- Where the loop of `Run` stands: querying (lines 96-134), diffing (lines
136-154), emitting (lines 155-158), at the `select` (lines 160-165), returned,
or lost to a panic or to a decode loop that is never left. -/
inductive Loc where
  | query : Loc
  | diff : Loc
  | emit : Loc
  | wait : Loc
  | stopped : Loc
  | crashed : Loc
  | hung : Loc
deriving DecidableEq

/-- The state of a running `Run`: the discovery, the batches sent on `ch` so
far, the iteration in progress, and the two channels of the `select`:
`cancelled` says that `ctx.Done()` is closed, `tickReady` that the ticker
channel `c` holds a tick. -/
structure LoopState where
  d : discovery
  out : List (List Group)
  loc : Loc
  pending : CycleResult
  cancelled : Bool
  tickReady : Bool

/-- What can happen next: the context is cancelled, the ticker fires, the
network answers the query, the loop diffs, the loop emits, the `select` takes
the tick, the `select` takes the cancellation. -/
inductive Event where
  | cancel : Event
  | tick : Event
  | respond (r : Response) : Event
  | diff : Event
  | emit : Event
  | selectTick : Event
  | selectDone : Event
deriving DecidableEq

/-- One step of the machine; `none` when the event cannot happen in the state.
At the `select` a case can be taken when its channel is ready; with both ready
either can be taken. -/
def step (s : LoopState) : Event → Option LoopState
  | .cancel => some { s with cancelled := true }
  | .tick => some { s with tickReady := true }
  | .respond r =>
    if s.loc = .query then
      let c := runCycle s.d r
      match c.exit with
      | .continued => some { s with d := c.d }
      | .waiting => some { s with loc := .diff, pending := c }
      | .panicked _ => some { s with loc := .crashed }
      | .hung => some { s with loc := .hung }
    else none
  | .diff =>
    if s.loc = .diff then some { s with loc := .emit, d := s.pending.d } else none
  | .emit =>
    if s.loc = .emit then
      some { s with loc := .wait, out := s.out ++ s.pending.sent.toList }
    else none
  | .selectTick =>
    if s.loc = .wait ∧ s.tickReady = true then
      some { s with loc := .query, tickReady := false }
    else none
  | .selectDone =>
    if s.loc = .wait ∧ s.cancelled = true then some { s with loc := .stopped } else none

/-- A run of the machine along a list of events. -/
def exec : LoopState → List Event → Option LoopState
  | s, [] => some s
  | s, e :: es => (step s e).bind (fun s' => exec s' es)

/-- The state in which `Run` starts. -/
def LoopState.start (d : discovery) : LoopState :=
  { d := d, out := [], loc := .query,
    pending := { d := d, sent := none, exit := .waiting },
    cancelled := false, tickReady := false }

/-- Function `discovery.Run` (lines 93-167) as the machine started on `d`. -/
def Run (d : discovery) (es : List Event) : Option LoopState :=
  exec (LoopState.start d) es

/-- The number of query/emit cycles that complete along a list of events. -/
def cyclesCompleted (es : List Event) : Nat :=
  es.count Event.emit

/-! ## Sample inputs -/

/-- The record of the label-prefixing example of the specification. -/
def sampleRecord : MetricRecord :=
  mapOf [("__name__", "up"), ("role", "jmx"), ("instance", "10.0.0.1:9999"),
    ("exporter_port", "9404")]

/-- A record with only the two labels that make the identity. -/
def recordOf (inst port : String) : MetricRecord :=
  mapOf [("instance", inst), ("exporter_port", port)]

/-- The configuration that `main` builds for the default flags (lines 204-208). -/
def sampleConf : sdConfig :=
  { RoleLabel := "jmx_exporter", Address := "localhost:9090", RefreshInterval := 30 }

/-- The discovery that `newDiscovery` returns for `sampleConf`. -/
def freshState : discovery :=
  (newDiscovery sampleConf).1

/-- A discovery whose previous cycle reported `a:1` and `b:1`. -/
def sampleState : discovery :=
  { freshState with oldSourceList := mapOf [("a:1", true), ("b:1", true)] }

/-- A result with the identities `b:1` and `c:1`. -/
def sampleResult : MetricLabels :=
  resultOf [recordOf "b:9999" "1", recordOf "c:9999" "1"]

/-- The group that `parseServiceNodes` builds for `recordOf inst port`, given
its identity `src`. -/
def sampleGroup (inst port src : String) : Group :=
  { Targets := [AList.singleton AddressLabel src],
    Labels := buildLabels (recordOf inst port) ∅,
    Source := src }

/-- The body `{"status": 5}` as the decoder presents it: one value, for which
`dec.Decode` returns a type error after it has allocated `metrics` and left
its fields at their zero values; then `dec.More()` is false. -/
def typeErrorBody : Body :=
  .call
    { err := some
        "json: cannot unmarshal number into Go struct field MetricLabels.Status of type string",
      metrics := some { Data := { Result := [], ResultType := "" }, Status := "" } }
    .eof

/-- A running `Run` on the sample state whose context is already cancelled. -/
def cancelledStart : LoopState :=
  { LoopState.start sampleState with cancelled := true }

/-- Two full cycles after the cancellation: the ticker fires while the first
cycle is under way, so the first `select` finds a tick ready as well as the
cancellation, and takes the tick. -/
def raceEvents : List Event :=
  [.respond (.body (okBody sampleResult)), .tick, .diff, .emit, .selectTick,
   .respond (.body (okBody sampleResult)), .diff, .emit]

/-- The number of cycles that can still complete from a location when the
`select` takes no tick. -/
def cyclesLeft : Loc → Nat
  | .query => 1
  | .diff => 1
  | .emit => 1
  | _ => 0


/-! ## Facts about `Split` and the derived identity -/

theorem splitChars_head (sep : Char) (l cur : List Char) :
    ∃ rest, splitChars sep l cur = (cur ++ l.takeWhile (fun c => c != sep)) :: rest := by
  induction l generalizing cur with
  | nil => exact ⟨[], by simp [splitChars]⟩
  | cons c cs ih =>
    by_cases h : c = sep
    · exact ⟨splitChars sep cs [], by simp [splitChars, h]⟩
    · obtain ⟨rest, hrest⟩ := ih (cur ++ [c])
      exact ⟨rest, by simp [splitChars, h, hrest]⟩

theorem Split_head (s : String) (sep : Char) :
    ∃ rest, Split s sep = String.mk (s.data.takeWhile (fun c => c != sep)) :: rest := by
  obtain ⟨rest, hrest⟩ := splitChars_head sep s.data []
  exact ⟨rest.map String.mk, by simp [Split, hrest]⟩

theorem parseServiceNodes_eq (metric : MetricRecord) (name : String) :
    parseServiceNodes metric name =
      .ok ({ Targets := [AList.singleton AddressLabel (specSource metric)],
             Labels := buildLabels metric ∅,
             Source := specSource metric }, none) := by
  obtain ⟨rest, hrest⟩ := Split_head (getStr metric "instance") ':'
  simp [parseServiceNodes, hrest, specSource]

theorem append_sep_inj {α : Type} (x : α) :
    ∀ (a b r₁ r₂ : List α), x ∉ a → x ∉ b → a ++ x :: r₁ = b ++ x :: r₂ → a = b ∧ r₁ = r₂
  | [], [], _, _, _, _, h => by simpa using h
  | [], y :: b, _, _, _, hb, h => by
    simp only [List.nil_append, List.cons_append, List.cons.injEq] at h
    exact absurd (by simp [h.1]) hb
  | y :: a, [], _, _, ha, _, h => by
    simp only [List.nil_append, List.cons_append, List.cons.injEq] at h
    exact absurd (by simp [h.1]) ha
  | y :: a, z :: b, r₁, r₂, ha, hb, h => by
    simp only [List.cons_append, List.cons.injEq] at h
    have ha' : x ∉ a := fun hx => ha (List.mem_cons_of_mem _ hx)
    have hb' : x ∉ b := fun hx => hb (List.mem_cons_of_mem _ hx)
    obtain ⟨h1, h2⟩ := append_sep_inj x a b r₁ r₂ ha' hb' h.2
    exact ⟨by rw [h.1, h1], h2⟩

theorem sep_not_mem_takeWhile (l : List Char) :
    ':' ∉ l.takeWhile (fun c => c != ':') := by
  intro h
  have := List.mem_takeWhile_imp h
  simp at this

theorem specSource_data (metric : MetricRecord) :
    (specSource metric).data =
      (getStr metric "instance").data.takeWhile (fun c => c != ':') ++
        ':' :: (getStr metric "exporter_port").data := by
  simp [specSource, String.data_append]

theorem specSource_port (m₁ m₂ : MetricRecord) (h : specSource m₁ = specSource m₂) :
    getStr m₁ "exporter_port" = getStr m₂ "exporter_port" := by
  have hd := congrArg String.data h
  rw [specSource_data, specSource_data] at hd
  have := append_sep_inj ':' _ _ _ _ (sep_not_mem_takeWhile _) (sep_not_mem_takeWhile _) hd
  exact String.ext this.2


/-! ## Facts about the label loop -/

theorem meta_ne_name (k : String) : MetaLabelPrefix ++ k ≠ "__name__" := by
  intro h
  have hd := congrArg String.data h
  simp [MetaLabelPrefix, String.data_append] at hd

theorem meta_append_inj (k₁ k₂ : String) (h : MetaLabelPrefix ++ k₁ = MetaLabelPrefix ++ k₂) :
    k₁ = k₂ := by
  have hd := congrArg String.data h
  simp only [String.data_append] at hd
  exact String.ext (List.append_cancel_left hd)

theorem specLabelName_inj (k₁ k₂ : String) (h : specLabelName k₁ = specLabelName k₂) :
    k₁ = k₂ := by
  unfold specLabelName at h
  by_cases h₁ : k₁ = "__name__" <;> by_cases h₂ : k₂ = "__name__"
  · rw [h₁, h₂]
  · rw [if_pos h₁, if_neg h₂] at h
    exact absurd h.symm (meta_ne_name k₂)
  · rw [if_neg h₁, if_pos h₂] at h
    exact absurd h (meta_ne_name k₁)
  · rw [if_neg h₁, if_neg h₂] at h
    exact meta_append_inj k₁ k₂ h

theorem addLabel_eq (labels : LabelSet) (k v : String) :
    addLabel labels k v = labels.insert (specLabelName k) v := by
  unfold addLabel specLabelName
  by_cases h : k = "__name__"
  · simp [h]
  · simp [h]

theorem lookup_foldl_addLabel_of_ne (x : String) :
    ∀ (l : List (Sigma fun _ : String => String)) (acc : LabelSet),
      (∀ e ∈ l, specLabelName e.1 ≠ x) →
      (l.foldl (fun ls kv => addLabel ls kv.1 kv.2) acc).lookup x = acc.lookup x
  | [], _, _ => rfl
  | e :: l, acc, h => by
    have he : specLabelName e.1 ≠ x := h e (List.mem_cons_self _ _)
    have hl : ∀ e' ∈ l, specLabelName e'.1 ≠ x := fun e' he' =>
      h e' (List.mem_cons_of_mem _ he')
    rw [List.foldl_cons, lookup_foldl_addLabel_of_ne x l _ hl, addLabel_eq]
    exact AList.lookup_insert_ne (Ne.symm he)

theorem lookup_foldl_addLabel_of_mem :
    ∀ (l : List (Sigma fun _ : String => String)) (acc : LabelSet), l.NodupKeys →
      ∀ e ∈ l, (l.foldl (fun ls kv => addLabel ls kv.1 kv.2) acc).lookup (specLabelName e.1)
        = some e.2
  | [], _, _, e, he => by simp at he
  | e₀ :: l, acc, hnd, e, he => by
    rw [List.nodupKeys_cons] at hnd
    rw [List.foldl_cons]
    rcases List.mem_cons.1 he with rfl | hmem
    · have hl : ∀ e' ∈ l, specLabelName e'.1 ≠ specLabelName e.1 := by
        intro e' he' hEq
        have hk : e'.1 = e.1 := specLabelName_inj _ _ hEq
        exact hnd.1 (hk ▸ List.mem_keys_of_mem he')
      rw [lookup_foldl_addLabel_of_ne _ l _ hl, addLabel_eq]
      exact AList.lookup_insert _
    · exact lookup_foldl_addLabel_of_mem l _ hnd.2 e hmem

theorem buildLabels_lookup_of_lookup (metric : MetricRecord) (k v : String)
    (h : metric.lookup k = some v) :
    (buildLabels metric ∅).lookup (specLabelName k) = some v := by
  have hmem : (⟨k, v⟩ : Sigma fun _ : String => String) ∈ metric.entries :=
    AList.mem_lookup_iff.1 h
  exact lookup_foldl_addLabel_of_mem metric.entries ∅ metric.nodupKeys _ hmem

theorem buildLabels_lookup_inv (metric : MetricRecord) (x v : String)
    (h : (buildLabels metric ∅).lookup x = some v) :
    ∃ k, x = specLabelName k ∧ metric.lookup k = some v := by
  by_cases hex : ∃ e ∈ metric.entries, specLabelName e.1 = x
  · obtain ⟨e, he, rfl⟩ := hex
    have := lookup_foldl_addLabel_of_mem metric.entries ∅ metric.nodupKeys e he
    unfold buildLabels at h
    rw [this] at h
    refine ⟨e.1, rfl, ?_⟩
    have hv : e.2 = v := Option.some.inj h
    rw [← hv]
    exact AList.mem_lookup_iff.2 he
  · have hne : ∀ e ∈ metric.entries, specLabelName e.1 ≠ x := fun e he hEq => hex ⟨e, he, hEq⟩
    unfold buildLabels at h
    rw [lookup_foldl_addLabel_of_ne x _ _ hne] at h
    simp at h

theorem buildLabels_length (metric : MetricRecord) :
    (buildLabels metric ∅).entries.length = metric.entries.length := by
  have hperm : (buildLabels metric ∅).keys.Perm (metric.keys.map specLabelName) := by
    refine (List.perm_ext_iff_of_nodup (AList.keys_nodup _) ?_).2 ?_
    · exact (AList.keys_nodup metric).map (fun a b hab => specLabelName_inj a b hab)
    · intro x
      constructor
      · intro hx
        have hx' : x ∈ buildLabels metric ∅ := AList.mem_keys.2 hx
        obtain ⟨v, hv⟩ := Option.isSome_iff_exists.1 (AList.lookup_isSome.2 hx')
        obtain ⟨k, rfl, hk⟩ := buildLabels_lookup_inv metric x v hv
        refine List.mem_map.2 ⟨k, ?_, rfl⟩
        exact AList.mem_keys.1 (AList.lookup_isSome.1 (by simp [hk]))
      · intro hx
        obtain ⟨k, hk, rfl⟩ := List.mem_map.1 hx
        obtain ⟨v, hv⟩ := Option.isSome_iff_exists.1 (AList.lookup_isSome.2 (AList.mem_keys.2 hk))
        have := buildLabels_lookup_of_lookup metric k v hv
        exact AList.mem_keys.1 (AList.lookup_isSome.1 (by simp [this]))
  have hlen := hperm.length_eq
  simpa [AList.keys, List.keys] using hlen


/-! ## Facts about one iteration of `Run` -/

theorem groupOf_eq (name : String) (v : ResultRow) :
    groupOf name v = some { Targets := [AList.singleton AddressLabel (specSource v.Metric)],
                            Labels := buildLabels v.Metric ∅,
                            Source := specSource v.Metric } := by
  simp [groupOf, parseServiceNodes_eq]

theorem parse_of_groupOf (name : String) (v : ResultRow) (g : Group)
    (h : groupOf name v = some g) : parseServiceNodes v.Metric name = .ok (g, none) := by
  rw [groupOf_eq] at h
  rw [parseServiceNodes_eq, Option.some.inj h]

theorem parseLoop_eq (name : String) :
    ∀ (rows : List ResultRow) (tgs : List Group) (newSourceList : SourceList),
      parseLoop name rows tgs newSourceList =
        .ok (tgs ++ rows.filterMap (groupOf name),
             (rows.filterMap (groupOf name)).foldl (fun n g => n.insert g.Source true)
               newSourceList)
  | [], tgs, n => by simp [parseLoop]
  | v :: vs, tgs, n => by
    have hg := groupOf_eq name v
    rw [parseLoop, parseServiceNodes_eq]
    simp only
    rw [parseLoop_eq name vs, List.filterMap_cons, hg]
    simp

theorem forall₂_aliveGroups (name : String) (rows : List ResultRow) :
    List.Forall₂ (fun v g => parseServiceNodes v.Metric name = .ok (g, none))
      rows (rows.filterMap (groupOf name)) := by
  induction rows with
  | nil => simp
  | cons v vs ih =>
    have hg := groupOf_eq name v
    rw [List.filterMap_cons, hg]
    exact List.Forall₂.cons (parse_of_groupOf name v _ hg) ih

theorem tombstoneLoop_eq (newSourceList : SourceList) :
    ∀ (keys : List String) (tgs : List Group),
      keys.foldl
          (fun tgs key =>
            if !getBool newSourceList key then
              tgs ++ [{ Source := key, Targets := [], Labels := ∅ }]
            else tgs)
          tgs =
        tgs ++ (keys.filter (fun k => !getBool newSourceList k)).map tombstone
  | [], tgs => by simp
  | k :: ks, tgs => by
    rw [List.foldl_cons, tombstoneLoop_eq newSourceList ks]
    by_cases h : getBool newSourceList k = true
    · simp [h]
    · simp [h, tombstone]

theorem getBool_foldl_insert (X : String) :
    ∀ (gs : List Group) (n : SourceList),
      getBool (gs.foldl (fun n g => n.insert g.Source true) n) X = true ↔
        getBool n X = true ∨ X ∈ gs.map (fun g => g.Source)
  | [], n => by simp
  | g :: gs, n => by
    rw [List.foldl_cons, getBool_foldl_insert X gs]
    by_cases h : X = g.Source
    · subst h
      simp [getBool, AList.lookup_insert]
    · have h' : g.Source ≠ X := fun e => h e.symm
      simp [getBool, AList.lookup_insert_ne h, h, h']

theorem mem_foldl_insert (X : String) :
    ∀ (gs : List Group) (n : SourceList),
      X ∈ gs.foldl (fun n g => n.insert g.Source true) n ↔
        X ∈ n ∨ X ∈ gs.map (fun g => g.Source)
  | [], n => by simp
  | g :: gs, n => by
    rw [List.foldl_cons, mem_foldl_insert X gs, AList.mem_insert]
    simp only [List.map_cons, List.mem_cons]
    tauto

/-- What one iteration does when the decode loop leaves a result. -/
theorem runCycle_eq (d : discovery) (b : Body) (m : MetricLabels)
    (hb : decodeLoop b none = some (some m)) :
    runCycle d (.body b) =
      { d := { d with oldSourceList :=
                 (aliveGroups d.roleLabel m).foldl (fun n g => n.insert g.Source true) ∅ },
        sent := some (aliveGroups d.roleLabel m ++
          (d.oldSourceList.keys.filter (fun k => !getBool
            ((aliveGroups d.roleLabel m).foldl (fun n g => n.insert g.Source true) ∅) k)).map
              tombstone),
        exit := .waiting } := by
  have ht := tombstoneLoop_eq
    ((aliveGroups d.roleLabel m).foldl (fun n g => n.insert g.Source true) ∅)
    d.oldSourceList.keys (aliveGroups d.roleLabel m)
  simp only [runCycle, hb, parseLoop_eq, tombstoneLoop, List.nil_append]
  unfold aliveGroups at ht ⊢
  rw [ht]
  simp


/-! ## The properties of the specification -/

/-- C3: for every record and role name, `parseServiceNodes` returns no error
and a group whose `Source` is the part of the `instance` value before its first
`:` followed by `:` and the `exporter_port` value (an absent label reads as the
empty string), whose `Targets` is one label set with the address label equal to
that `Source`; the role name does not change the result. -/
theorem parseServiceNodes_identity (metric : MetricRecord) (name : String) :
    ∃ g : Group, parseServiceNodes metric name = .ok (g, none) ∧
      g.Source = specSource metric ∧
      g.Targets = [AList.singleton AddressLabel g.Source] ∧
      (∀ t ∈ g.Targets, t.lookup AddressLabel = some g.Source) ∧
      ∀ other : String, parseServiceNodes metric other = parseServiceNodes metric name := by
  refine ⟨_, parseServiceNodes_eq metric name, rfl, rfl, ?_, ?_⟩
  · intro t ht
    rw [List.mem_singleton.1 ht]
    simp [AList.lookup, AList.singleton, List.dlookup]
  · intro other
    rw [parseServiceNodes_eq, parseServiceNodes_eq]

/-- C3, on the record of the specification: instance `10.0.0.1:9999` and
exporter port `9404` give the source `10.0.0.1:9404` and one target with that
address. -/
theorem parseServiceNodes_identity_witness :
    ∃ g : Group, parseServiceNodes sampleRecord "jmx" = .ok (g, none) ∧
      g.Source = "10.0.0.1:9404" ∧
      g.Targets = [AList.singleton "__address__" "10.0.0.1:9404"] := by
  obtain ⟨g, hg, hs, ht, _⟩ := parseServiceNodes_identity sampleRecord "jmx"
  have hs' : g.Source = "10.0.0.1:9404" := hs.trans (by decide)
  exact ⟨g, hg, hs', by rw [ht, hs']; rfl⟩

/-- C4: the `Labels` of the group that `parseServiceNodes` returns hold, for
every key `k` of the record with value `v`, the entry `__name__` = `v` when `k`
is `__name__` and (meta-label prefix + `k`) = `v` otherwise, and no other
entry; distinct keys get distinct label names, so the label set has as many
entries as the record. -/
theorem parseServiceNodes_labels (metric : MetricRecord) (name : String) :
    ∃ g : Group, parseServiceNodes metric name = .ok (g, none) ∧
      (∀ k v : String, metric.lookup k = some v →
        g.Labels.lookup (if k = "__name__" then "__name__" else MetaLabelPrefix ++ k) = some v) ∧
      (∀ x v : String, g.Labels.lookup x = some v →
        ∃ k, x = (if k = "__name__" then "__name__" else MetaLabelPrefix ++ k) ∧
          metric.lookup k = some v) ∧
      (∀ k₁ k₂ : String, specLabelName k₁ = specLabelName k₂ → k₁ = k₂) ∧
      g.Labels.entries.length = metric.entries.length := by
  refine ⟨_, parseServiceNodes_eq metric name, ?_, ?_, specLabelName_inj, ?_⟩
  · exact fun k v h => buildLabels_lookup_of_lookup metric k v h
  · exact fun x v h => buildLabels_lookup_inv metric x v h
  · exact buildLabels_length metric

/-- C4, on the record of the specification: `__name__` = `up` stays
unprefixed, `role` = `jmx` is filed under the meta-label prefix, and the label
set has the four entries of the record. -/
theorem parseServiceNodes_labels_witness :
    ∃ g : Group, parseServiceNodes sampleRecord "jmx" = .ok (g, none) ∧
      g.Labels.lookup "__name__" = some "up" ∧
      g.Labels.lookup "__meta_role" = some "jmx" ∧
      g.Labels.lookup "role" = none ∧
      g.Labels.entries.length = 4 := by
  obtain ⟨g, hg, h1, h2, _, h4⟩ := parseServiceNodes_labels sampleRecord "jmx"
  refine ⟨g, hg, h1 "__name__" "up" (by decide), h1 "role" "jmx" (by decide), ?_,
    h4.trans (by decide)⟩
  cases hr : g.Labels.lookup "role" with
  | none => rfl
  | some v =>
    obtain ⟨k, hk, _⟩ := h2 "role" v hr
    by_cases hn : k = "__name__"
    · rw [if_pos hn] at hk
      exact absurd hk (by decide)
    · rw [if_neg hn] at hk
      have hd := congrArg String.data hk
      simp [MetaLabelPrefix, String.data_append] at hd

/-- C5: two records whose `exporter_port` values differ get different
`Source`s from `parseServiceNodes`, whatever their `instance` values; two
records with the same `instance` and `exporter_port` values get the same
`Source`. -/
theorem source_determined (m₁ m₂ : MetricRecord) (n₁ n₂ : String) (g₁ g₂ : Group)
    (h₁ : parseServiceNodes m₁ n₁ = .ok (g₁, none))
    (h₂ : parseServiceNodes m₂ n₂ = .ok (g₂, none)) :
    (getStr m₁ "exporter_port" ≠ getStr m₂ "exporter_port" → g₁.Source ≠ g₂.Source) ∧
    (getStr m₁ "instance" = getStr m₂ "instance" →
      getStr m₁ "exporter_port" = getStr m₂ "exporter_port" → g₁.Source = g₂.Source) := by
  rw [parseServiceNodes_eq] at h₁ h₂
  have e₁ : g₁.Source = specSource m₁ := by
    have := congrArg Prod.fst (Except.ok.inj h₁)
    exact (congrArg Group.Source this).symm
  have e₂ : g₂.Source = specSource m₂ := by
    have := congrArg Prod.fst (Except.ok.inj h₂)
    exact (congrArg Group.Source this).symm
  constructor
  · intro hp hs
    exact hp (specSource_port m₁ m₂ (by rw [← e₁, ← e₂, hs]))
  · intro hi hp
    rw [e₁, e₂]
    unfold specSource
    rw [hi, hp]

/-- C5, on two records of one host: ports `9404` and `9405` give two
identities, the same port gives one. -/
theorem source_determined_witness :
    parseServiceNodes (recordOf "h:9999" "9404") "jmx" =
      .ok (sampleGroup "h:9999" "9404" "h:9404", none) ∧
    parseServiceNodes (recordOf "h:9999" "9405") "node" =
      .ok (sampleGroup "h:9999" "9405" "h:9405", none) ∧
    getStr (recordOf "h:9999" "9404") "exporter_port" ≠
      getStr (recordOf "h:9999" "9405") "exporter_port" ∧
    (sampleGroup "h:9999" "9404" "h:9404").Source ≠
      (sampleGroup "h:9999" "9405" "h:9405").Source :=
  ⟨rfl, rfl, by decide,
    (source_determined (recordOf "h:9999" "9404") (recordOf "h:9999" "9405") "jmx" "node"
      (sampleGroup "h:9999" "9404" "h:9404") (sampleGroup "h:9999" "9405" "h:9405")
      rfl rfl).1 (by decide)⟩


theorem decoded_body (r : Response) (m : MetricLabels) (h : decoded r = some m) :
    ∃ b, r = .body b ∧ decodeLoop b none = some (some m) := by
  cases r with
  | requestError e => simp [decoded] at h
  | transportError e => simp [decoded] at h
  | body b =>
    refine ⟨b, rfl, ?_⟩
    have h' : (decodeLoop b none).join = some m := h
    cases hd : decodeLoop b none with
    | none => rw [hd] at h'; simp at h'
    | some o =>
      rw [hd] at h'
      have ho : o = some m := h'
      rw [ho]

theorem alive_targets (name : String) (m : MetricLabels) :
    ∀ g ∈ aliveGroups name m, g.Targets ≠ [] := by
  intro g hg
  obtain ⟨v, _, hv⟩ := List.mem_filterMap.1 hg
  rw [groupOf_eq] at hv
  rw [← Option.some.inj hv]
  simp

theorem getBool_new (name : String) (m : MetricLabels) (X : String) :
    getBool ((aliveGroups name m).foldl (fun n g => n.insert g.Source true) ∅) X = true ↔
      X ∈ aliveSources name m := by
  rw [getBool_foldl_insert]
  simp [getBool, aliveSources]

theorem mem_new (name : String) (m : MetricLabels) (X : String) :
    X ∈ ((aliveGroups name m).foldl (fun (n : SourceList) g => n.insert g.Source true) ∅).keys ↔
      X ∈ aliveSources name m := by
  rw [← AList.mem_keys, mem_foldl_insert]
  simp [aliveSources]

theorem mem_tombs (old : SourceList) (name : String) (m : MetricLabels) (X : String) :
    X ∈ ((old.keys.filter (fun k => !getBool
        ((aliveGroups name m).foldl (fun n g => n.insert g.Source true) ∅) k)).map
          tombstone).map (fun g => g.Source) ↔
      X ∈ old.keys ∧ X ∉ aliveSources name m := by
  have hmap : ∀ l : List String, (l.map tombstone).map (fun g => g.Source) = l := by
    intro l
    simp [List.map_map, Function.comp_def, tombstone]
  rw [hmap, List.mem_filter, ← getBool_new name m X]
  simp

theorem filter_tombs_of_not_mem (X : String) :
    ∀ l : List String, X ∉ l →
      (l.map tombstone).filter (fun g => decide (g.Source = X)) = []
  | [], _ => rfl
  | k :: l, h => by
    have hk : k ≠ X := fun e => h (by simp [e])
    have hl : X ∉ l := fun e => h (List.mem_cons_of_mem _ e)
    simp [List.filter_cons, tombstone, hk, ← filter_tombs_of_not_mem X l hl]

theorem filter_tombs_of_mem (X : String) :
    ∀ l : List String, l.Nodup → X ∈ l →
      (l.map tombstone).filter (fun g => decide (g.Source = X)) = [tombstone X]
  | [], _, h => by simp at h
  | k :: l, hnd, h => by
    rw [List.nodup_cons] at hnd
    by_cases hk : k = X
    · subst hk
      have := filter_tombs_of_not_mem k l hnd.1
      simp [List.filter_cons, tombstone] at this ⊢
      exact this
    · have hl : X ∈ l := by
        rcases List.mem_cons.1 h with e | e
        · exact absurd e.symm hk
        · exact e
      have := filter_tombs_of_mem X l hnd.2 hl
      simp [List.filter_cons, tombstone, hk] at this ⊢
      exact this

theorem filter_alive_of_not_mem (X : String) (gs : List Group)
    (h : X ∉ gs.map (fun g => g.Source)) :
    gs.filter (fun g => decide (g.Source = X)) = [] := by
  rw [List.filter_eq_nil_iff]
  intro g hg hX
  exact h (List.mem_map.2 ⟨g, hg, by simpa using hX⟩)


/-- C1: when the decode loop leaves a result, the batch that the iteration
sends is one group per record, in record order, each the group that
`parseServiceNodes` returns, followed by groups without targets whose sources
are the keys of `oldSourceList` that are not among the sources of the alive
groups, each such key once and no other. -/
theorem run_batch (d : discovery) (b : Body) (m : MetricLabels)
    (hb : decodeLoop b none = some (some m)) :
    ∃ alive tombs : List Group,
      (runCycle d (.body b)).sent = some (alive ++ tombs) ∧
      List.Forall₂ (fun v g => parseServiceNodes v.Metric d.roleLabel = .ok (g, none))
        m.Data.Result alive ∧
      (∀ g ∈ alive, g.Targets ≠ []) ∧
      (∀ g ∈ tombs, g.Targets = []) ∧
      (tombs.map (fun g => g.Source)).Nodup ∧
      ∀ X : String, X ∈ tombs.map (fun g => g.Source) ↔
        X ∈ d.oldSourceList.keys ∧ X ∉ alive.map (fun g => g.Source) := by
  refine ⟨aliveGroups d.roleLabel m, _, ?_, forall₂_aliveGroups _ _, alive_targets _ _, ?_, ?_,
    fun X => mem_tombs d.oldSourceList d.roleLabel m X⟩
  · rw [runCycle_eq d b m hb]
  · intro g hg
    obtain ⟨k, _, rfl⟩ := List.mem_map.1 hg
    rfl
  · have hmap : ∀ l : List String, (l.map tombstone).map (fun g => g.Source) = l := by
      intro l
      simp [List.map_map, Function.comp_def, tombstone]
    rw [hmap]
    exact (AList.keys_nodup _).filter _

/-- C1, on the example of the specification: with `a:1` and `b:1` reported
before and a result with `b:1` and `c:1`, the batch is the alive groups of
`b:1` and `c:1` and one group without targets for `a:1`. -/
theorem run_batch_witness :
    decodeLoop (okBody sampleResult) none = some (some sampleResult) ∧
    (runCycle sampleState (.body (okBody sampleResult))).sent.map
        (fun batch => batch.map (fun g => (g.Source, g.Targets.length))) =
      some [("b:1", 1), ("c:1", 1), ("a:1", 0)] ∧
    ∃ alive tombs : List Group,
      (runCycle sampleState (.body (okBody sampleResult))).sent = some (alive ++ tombs) ∧
      List.Forall₂ (fun v g => parseServiceNodes v.Metric sampleState.roleLabel = .ok (g, none))
        sampleResult.Data.Result alive ∧
      (∀ g ∈ alive, g.Targets ≠ []) ∧
      (∀ g ∈ tombs, g.Targets = []) ∧
      (tombs.map (fun g => g.Source)).Nodup ∧
      ∀ X : String, X ∈ tombs.map (fun g => g.Source) ↔
        X ∈ sampleState.oldSourceList.keys ∧ X ∉ alive.map (fun g => g.Source) :=
  ⟨rfl, by decide, run_batch sampleState (okBody sampleResult) sampleResult rfl⟩

/-- C9: every group that the iteration appends after the alive groups has a
key of `oldSourceList` as its `Source`, no targets and no labels, and every key
of `oldSourceList` that is not an alive source gets such a group. -/
theorem tombstone_shape (d : discovery) (b : Body) (m : MetricLabels)
    (hb : decodeLoop b none = some (some m)) :
    ∃ tombs : List Group,
      (runCycle d (.body b)).sent = some (aliveGroups d.roleLabel m ++ tombs) ∧
      (∀ g ∈ tombs, g.Targets = [] ∧ g.Labels = ∅ ∧ g.Source ∈ d.oldSourceList.keys ∧
        g.Source ∉ aliveSources d.roleLabel m) ∧
      ∀ X ∈ d.oldSourceList.keys, X ∉ aliveSources d.roleLabel m →
        ({ Source := X, Targets := [], Labels := ∅ } : Group) ∈ tombs := by
  refine ⟨_, by rw [runCycle_eq d b m hb], ?_, ?_⟩
  · intro g hg
    have hs := (mem_tombs d.oldSourceList d.roleLabel m g.Source).1
      (List.mem_map.2 ⟨g, hg, rfl⟩)
    obtain ⟨k, _, rfl⟩ := List.mem_map.1 hg
    exact ⟨rfl, rfl, hs.1, hs.2⟩
  · intro X hX hnot
    have hs := (mem_tombs d.oldSourceList d.roleLabel m X).2 ⟨hX, hnot⟩
    obtain ⟨g, hg, hgX⟩ := List.mem_map.1 hs
    obtain ⟨k, _, rfl⟩ := List.mem_map.1 hg
    have hk : k = X := hgX
    rw [← hk]
    exact hg

/-- C9, on a source that carried four labels: after a cycle that reports the
record of the specification, a cycle with an empty result sends one group for
`10.0.0.1:9404`, with no targets and no labels. -/
theorem tombstone_shape_witness :
    decodeLoop (okBody (resultOf [])) none = some (some (resultOf [])) ∧
    (runCycle (runCycle freshState
        (.body (okBody (resultOf [sampleRecord])))).d (.body (okBody (resultOf [])))).sent =
      some [{ Source := "10.0.0.1:9404", Targets := [], Labels := ∅ }] ∧
    ∃ tombs : List Group,
      (runCycle sampleState (.body (okBody (resultOf [])))).sent =
        some (aliveGroups sampleState.roleLabel (resultOf []) ++ tombs) ∧
      (∀ g ∈ tombs, g.Targets = [] ∧ g.Labels = ∅ ∧ g.Source ∈ sampleState.oldSourceList.keys ∧
        g.Source ∉ aliveSources sampleState.roleLabel (resultOf [])) ∧
      ∀ X ∈ sampleState.oldSourceList.keys, X ∉ aliveSources sampleState.roleLabel (resultOf []) →
        ({ Source := X, Targets := [], Labels := ∅ } : Group) ∈ tombs :=
  ⟨rfl, rfl, tombstone_shape sampleState (okBody (resultOf [])) (resultOf []) rfl⟩


theorem no_tombs_after (name : String) (m : MetricLabels) :
    ((aliveGroups name m).foldl (fun (n : SourceList) g => n.insert g.Source true) ∅).keys.filter
      (fun k => !getBool
        ((aliveGroups name m).foldl (fun n g => n.insert g.Source true) ∅) k) = [] := by
  rw [List.filter_eq_nil_iff]
  intro k hk
  have := (getBool_new name m k).2 ((mem_new name m k).1 hk)
  simp [this]

/-- C7, as stated, fails: with `a:1` and `b:1` reported before, two cycles that
both receive the result with `b:1` and `c:1` send different batches; the first
ends with a group without targets for `a:1`, the second does not. -/
theorem steady_state_counterexample :
    (runCycle sampleState (.body (okBody sampleResult))).sent.map
        (fun batch => batch.map (fun g => (g.Source, g.Targets.length))) =
      some [("b:1", 1), ("c:1", 1), ("a:1", 0)] ∧
    (runCycle (runCycle sampleState (.body (okBody sampleResult))).d
        (.body (okBody sampleResult))).sent.map
        (fun batch => batch.map (fun g => (g.Source, g.Targets.length))) =
      some [("b:1", 1), ("c:1", 1)] ∧
    (runCycle (runCycle sampleState (.body (okBody sampleResult))).d
        (.body (okBody sampleResult))).sent ≠
      (runCycle sampleState (.body (okBody sampleResult))).sent := by
  refine ⟨by decide, by decide, ?_⟩
  intro h
  have hlen := congrArg (fun s => s.map List.length) h
  revert hlen
  decide

/-- C7, amended: when two consecutive cycles decode the same result, the second
batch is the alive groups alone, and the first batch is the second followed by
the tombstones of the identities of `oldSourceList` that the result does not
yield: groups without targets and without labels, one for each such identity
and for no other; the two batches are equal exactly when there is no such
identity. -/
theorem steady_state (d : discovery) (r : Response) (m : MetricLabels)
    (hr : decoded r = some m) :
    ∃ alive tombs : List Group,
      (runCycle d r).sent = some (alive ++ tombs) ∧
      (runCycle (runCycle d r).d r).sent = some alive ∧
      List.Forall₂ (fun v g => parseServiceNodes v.Metric d.roleLabel = .ok (g, none))
        m.Data.Result alive ∧
      (∀ g ∈ alive, g.Targets ≠ []) ∧
      (∀ g ∈ tombs, g.Targets = [] ∧ g.Labels = ∅) ∧
      (tombs.map (fun g => g.Source)).Nodup ∧
      (∀ X : String, X ∈ tombs.map (fun g => g.Source) ↔
        X ∈ d.oldSourceList.keys ∧ X ∉ alive.map (fun g => g.Source)) ∧
      ((runCycle (runCycle d r).d r).sent = (runCycle d r).sent ↔
        ∀ X ∈ d.oldSourceList.keys, X ∈ alive.map (fun g => g.Source)) := by
  obtain ⟨b, rfl, hb⟩ := decoded_body r m hr
  have h1 := runCycle_eq d b m hb
  have h2 := runCycle_eq (runCycle d (.body b)).d b m hb
  have hrole : (runCycle d (.body b)).d.roleLabel = d.roleLabel := by rw [h1]
  have hold : (runCycle d (.body b)).d.oldSourceList =
      (aliveGroups d.roleLabel m).foldl (fun n g => n.insert g.Source true) ∅ := by rw [h1]
  rw [hrole, hold, no_tombs_after] at h2
  refine ⟨aliveGroups d.roleLabel m, _, by rw [h1], by rw [h2]; simp,
    forall₂_aliveGroups _ _, alive_targets _ _, ?_, ?_,
    fun X => mem_tombs d.oldSourceList d.roleLabel m X, ?_⟩
  · intro g hg
    obtain ⟨k, _, rfl⟩ := List.mem_map.1 hg
    exact ⟨rfl, rfl⟩
  · have hmap : ∀ l : List String, (l.map tombstone).map (fun g => g.Source) = l := by
      intro l
      simp [List.map_map, Function.comp_def, tombstone]
    rw [hmap]
    exact (AList.keys_nodup _).filter _
  · rw [h2, h1]
    simp only [List.map_nil, List.append_nil, Option.some.injEq, List.self_eq_append_right,
      List.map_eq_nil_iff, List.filter_eq_nil_iff]
    constructor
    · intro h X hX
      have := h X hX
      have hb' : getBool ((aliveGroups d.roleLabel m).foldl
          (fun n g => n.insert g.Source true) ∅) X = true := by simpa using this
      exact (getBool_new d.roleLabel m X).1 hb'
    · intro h X hX
      have := (getBool_new d.roleLabel m X).2 (h X hX)
      simp [this]

/-- C7 amended, on the sample: the sample result decodes; from the sample state
the first batch is the alive groups of `b:1` and `c:1` and the tombstone of
`a:1`, the second batch is the two alive groups alone, and the two batches are
related as stated. -/
theorem steady_state_witness :
    decoded (.body (okBody sampleResult)) = some sampleResult ∧
    (runCycle sampleState (.body (okBody sampleResult))).sent =
      some (aliveGroups sampleState.roleLabel sampleResult ++ [tombstone "a:1"]) ∧
    (runCycle (runCycle sampleState (.body (okBody sampleResult))).d
      (.body (okBody sampleResult))).sent =
      some (aliveGroups sampleState.roleLabel sampleResult) ∧
    ∃ alive tombs : List Group,
      (runCycle sampleState (.body (okBody sampleResult))).sent = some (alive ++ tombs) ∧
      (runCycle (runCycle sampleState (.body (okBody sampleResult))).d
        (.body (okBody sampleResult))).sent = some alive ∧
      List.Forall₂ (fun v g => parseServiceNodes v.Metric sampleState.roleLabel = .ok (g, none))
        sampleResult.Data.Result alive ∧
      (∀ g ∈ alive, g.Targets ≠ []) ∧
      (∀ g ∈ tombs, g.Targets = [] ∧ g.Labels = ∅) ∧
      (tombs.map (fun g => g.Source)).Nodup ∧
      (∀ X : String, X ∈ tombs.map (fun g => g.Source) ↔
        X ∈ sampleState.oldSourceList.keys ∧ X ∉ alive.map (fun g => g.Source)) ∧
      ((runCycle (runCycle sampleState (.body (okBody sampleResult))).d
          (.body (okBody sampleResult))).sent =
        (runCycle sampleState (.body (okBody sampleResult))).sent ↔
        ∀ X ∈ sampleState.oldSourceList.keys, X ∈ alive.map (fun g => g.Source)) :=
  ⟨rfl, rfl, rfl, steady_state sampleState (.body (okBody sampleResult)) sampleResult rfl⟩

theorem runCycle_quiet (d : discovery) (r : Response) (m : MetricLabels) (X : String)
    (hr : decoded r = some m) (hX : X ∉ d.oldSourceList.keys)
    (hout : X ∉ aliveSources d.roleLabel m) :
    (∃ sent, (runCycle d r).sent = some sent ∧ ∀ g ∈ sent, g.Source ≠ X) ∧
      X ∉ (runCycle d r).d.oldSourceList.keys ∧
      (runCycle d r).exit = .waiting ∧
      (runCycle d r).d.roleLabel = d.roleLabel := by
  obtain ⟨b, rfl, hb⟩ := decoded_body r m hr
  rw [runCycle_eq d b m hb]
  refine ⟨⟨_, rfl, ?_⟩, ?_, rfl, rfl⟩
  · intro g hg hgX
    rcases List.mem_append.1 hg with ha | ht
    · exact hout (List.mem_map.2 ⟨g, ha, hgX⟩)
    · have := (mem_tombs d.oldSourceList d.roleLabel m X).1 (List.mem_map.2 ⟨g, ht, hgX⟩)
      exact hX this.1
  · exact fun h => hout ((mem_new d.roleLabel m X).1 h)

theorem runCycles_quiet (X : String) :
    ∀ (later : List Response) (d : discovery), X ∉ d.oldSourceList.keys →
      (∀ r ∈ later, ∃ m, decoded r = some m ∧ X ∉ aliveSources d.roleLabel m) →
      (runCycles d later).length = later.length ∧
        ∀ c ∈ runCycles d later, ∃ sent, c.sent = some sent ∧ ∀ g ∈ sent, g.Source ≠ X
  | [], _, _, _ => by simp [runCycles]
  | r :: rs, d, hX, h => by
    obtain ⟨m, hm, hout⟩ := h r (List.mem_cons_self _ _)
    obtain ⟨hsent, hX', hexit, hrole⟩ := runCycle_quiet d r m X hm hX hout
    have hrs : ∀ r' ∈ rs, ∃ m, decoded r' = some m ∧
        X ∉ aliveSources (runCycle d r).d.roleLabel m := by
      intro r' hr'
      rw [hrole]
      exact h r' (List.mem_cons_of_mem _ hr')
    obtain ⟨hlen, hall⟩ := runCycles_quiet X rs (runCycle d r).d hX' hrs
    have hrun : runCycles d (r :: rs) = runCycle d r :: runCycles (runCycle d r).d rs := by
      simp [runCycles, hexit]
    rw [hrun]
    refine ⟨by simp [hlen], ?_⟩
    intro c hc
    rcases List.mem_cons.1 hc with rfl | hc'
    · exact hsent
    · exact hall c hc'

/-- C6: an identity `X` that the result of one successful cycle yields and the
result of the next does not is, in the batch of that next cycle, the source of
exactly one group, the group without targets and labels; it is not a key of
`oldSourceList` afterwards; and no group of any batch of the successful cycles
that follow carries it, for as long as their results do not yield `X`. -/
theorem tombstone_once (d : discovery) (r₁ r₂ : Response) (later : List Response)
    (m₁ m₂ : MetricLabels) (X : String)
    (h₁ : decoded r₁ = some m₁) (h₂ : decoded r₂ = some m₂)
    (hin : X ∈ aliveSources d.roleLabel m₁) (hout : X ∉ aliveSources d.roleLabel m₂)
    (hlater : ∀ r ∈ later, ∃ m, decoded r = some m ∧ X ∉ aliveSources d.roleLabel m) :
    ∃ batch : List Group,
      (runCycle (runCycle d r₁).d r₂).sent = some batch ∧
      batch.filter (fun g => decide (g.Source = X)) = [tombstone X] ∧
      X ∉ (runCycle (runCycle d r₁).d r₂).d.oldSourceList.keys ∧
      (runCycles (runCycle (runCycle d r₁).d r₂).d later).length = later.length ∧
      ∀ c ∈ runCycles (runCycle (runCycle d r₁).d r₂).d later,
        ∃ sent, c.sent = some sent ∧ ∀ g ∈ sent, g.Source ≠ X := by
  obtain ⟨b₁, rfl, hb₁⟩ := decoded_body r₁ m₁ h₁
  obtain ⟨b₂, rfl, hb₂⟩ := decoded_body r₂ m₂ h₂
  have e₁ := runCycle_eq d b₁ m₁ hb₁
  have hrole₁ : (runCycle d (.body b₁)).d.roleLabel = d.roleLabel := by rw [e₁]
  have hold₁ : (runCycle d (.body b₁)).d.oldSourceList =
      (aliveGroups d.roleLabel m₁).foldl (fun n g => n.insert g.Source true) ∅ := by rw [e₁]
  have e₂ := runCycle_eq (runCycle d (.body b₁)).d b₂ m₂ hb₂
  rw [hrole₁, hold₁] at e₂
  have hrole₂ : (runCycle (runCycle d (.body b₁)).d (.body b₂)).d.roleLabel = d.roleLabel := by
    rw [e₂]
  have hnot : X ∉ (runCycle (runCycle d (.body b₁)).d (.body b₂)).d.oldSourceList.keys := by
    rw [e₂]
    exact fun h => hout ((mem_new d.roleLabel m₂ X).1 h)
  have hlater' : ∀ r ∈ later, ∃ m, decoded r = some m ∧
      X ∉ aliveSources (runCycle (runCycle d (.body b₁)).d (.body b₂)).d.roleLabel m := by
    rw [hrole₂]
    exact hlater
  obtain ⟨hlen, hall⟩ := runCycles_quiet X later _ hnot hlater'
  refine ⟨_, by rw [e₂], ?_, hnot, hlen, hall⟩
  rw [List.filter_append, filter_alive_of_not_mem X _ hout, List.nil_append]
  refine filter_tombs_of_mem X _ ((AList.keys_nodup _).filter _) ?_
  refine List.mem_filter.2 ⟨(mem_new d.roleLabel m₁ X).2 hin, ?_⟩
  have hfalse : getBool ((aliveGroups d.roleLabel m₂).foldl
      (fun n g => n.insert g.Source true) ∅) X ≠ true :=
    fun h => hout ((getBool_new d.roleLabel m₂ X).1 h)
  simpa using hfalse


/-- C6, on a run of four cycles: `a:1` is reported, then vanishes, and the
two cycles after that do not report it. -/
theorem tombstone_once_witness :
    decoded (.body (okBody (resultOf [recordOf "a:9999" "1"]))) =
      some (resultOf [recordOf "a:9999" "1"]) ∧
    decoded (.body (okBody sampleResult)) = some sampleResult ∧
    "a:1" ∈ aliveSources freshState.roleLabel (resultOf [recordOf "a:9999" "1"]) ∧
    "a:1" ∉ aliveSources freshState.roleLabel sampleResult ∧
    ∃ batch : List Group,
      (runCycle (runCycle freshState
        (.body (okBody (resultOf [recordOf "a:9999" "1"])))).d
        (.body (okBody sampleResult))).sent = some batch ∧
      batch.filter (fun g => decide (g.Source = "a:1")) = [tombstone "a:1"] ∧
      "a:1" ∉ (runCycle (runCycle freshState
        (.body (okBody (resultOf [recordOf "a:9999" "1"])))).d
        (.body (okBody sampleResult))).d.oldSourceList.keys ∧
      (runCycles (runCycle (runCycle freshState
        (.body (okBody (resultOf [recordOf "a:9999" "1"])))).d
        (.body (okBody sampleResult))).d
        [.body (okBody sampleResult), .body (okBody (resultOf []))]).length = 2 ∧
      ∀ c ∈ runCycles (runCycle (runCycle freshState
        (.body (okBody (resultOf [recordOf "a:9999" "1"])))).d
        (.body (okBody sampleResult))).d
        [.body (okBody sampleResult), .body (okBody (resultOf []))],
        ∃ sent, c.sent = some sent ∧ ∀ g ∈ sent, g.Source ≠ "a:1" :=
  ⟨rfl, rfl, by decide, by decide,
    tombstone_once freshState
      (.body (okBody (resultOf [recordOf "a:9999" "1"]))) (.body (okBody sampleResult))
      [.body (okBody sampleResult), .body (okBody (resultOf []))]
      (resultOf [recordOf "a:9999" "1"]) sampleResult "a:1" rfl rfl (by decide) (by decide)
      (by
        intro r hr
        rcases List.mem_cons.1 hr with rfl | hr
        · exact ⟨sampleResult, rfl, by decide⟩
        · rw [List.mem_singleton.1 hr]
          exact ⟨resultOf [], rfl, by decide⟩)⟩


theorem transport_error_keeps_state (d : discovery) (e : String) :
    runCycle d (.transportError e) = { d := d, sent := none, exit := .continued } := rfl

/-- C2, at the failing input: from the sample state, a body whose only value
makes `dec.Decode` return an error still leads to a batch on the channel (a
group without targets for each of the keys `b:1` and `a:1`) and to an emptied
`oldSourceList`, where the claim has no batch and an unchanged `oldSourceList`. -/
theorem decode_error_still_sends :
    typeErrorBody.decodeFails = true ∧
    sampleState.oldSourceList.keys = ["b:1", "a:1"] ∧
    (runCycle sampleState (.body typeErrorBody)).sent =
      some (sampleState.oldSourceList.keys.map tombstone) ∧
    (runCycle sampleState (.body typeErrorBody)).d.oldSourceList.keys = [] ∧
    (runCycle sampleState (.body typeErrorBody)).exit = .waiting :=
  ⟨rfl, rfl, rfl, rfl, rfl⟩

/-- C8, at the failing input: with an empty body `dec.More()` is false at once,
`metrics` stays nil, and reading `metrics.Data.Result` panics; nothing is sent. -/
theorem empty_body_panics :
    decodeLoop .eof none = some none ∧
    (runCycle sampleState (.body .eof)).exit =
      .panicked "invalid memory address or nil pointer dereference" ∧
    (runCycle sampleState (.body .eof)).sent = none ∧
    (step (LoopState.start sampleState) (.respond (.body .eof))).map (fun s => s.loc) =
      some .crashed :=
  ⟨rfl, rfl, rfl, rfl⟩


/-! ## Facts about the machine -/

theorem step_cancelled (s s' : LoopState) (e : Event) (h : step s e = some s')
    (hc : s.cancelled = true) : s'.cancelled = true := by
  cases e with
  | cancel => simp only [step, Option.some.injEq] at h; rw [← h]
  | tick => simp only [step, Option.some.injEq] at h; rw [← h]; exact hc
  | respond r =>
    simp only [step] at h
    split at h
    · split at h <;> (simp only [Option.some.injEq] at h; rw [← h]; exact hc)
    · simp at h
  | diff =>
    simp only [step] at h
    split at h
    · simp only [Option.some.injEq] at h; rw [← h]; exact hc
    · simp at h
  | emit =>
    simp only [step] at h
    split at h
    · simp only [Option.some.injEq] at h; rw [← h]; exact hc
    · simp at h
  | selectTick =>
    simp only [step] at h
    split at h
    · simp only [Option.some.injEq] at h; rw [← h]; exact hc
    · simp at h
  | selectDone =>
    simp only [step] at h
    split at h
    · simp only [Option.some.injEq] at h; rw [← h]; exact hc
    · simp at h

theorem step_cyclesLeft (s s' : LoopState) (e : Event) (h : step s e = some s')
    (hsel : e ≠ .selectTick) :
    cyclesCompleted [e] + cyclesLeft s'.loc ≤ cyclesLeft s.loc := by
  cases e with
  | cancel =>
    simp only [step, Option.some.injEq] at h; rw [← h]; simp [cyclesCompleted]
  | tick =>
    simp only [step, Option.some.injEq] at h; rw [← h]; simp [cyclesCompleted]
  | respond r =>
    simp only [step] at h
    split at h
    · rename_i hloc
      split at h <;>
        (simp only [Option.some.injEq] at h; rw [← h]; simp [cyclesCompleted, cyclesLeft, hloc])
    · simp at h
  | diff =>
    simp only [step] at h
    split at h
    · rename_i hloc
      simp only [Option.some.injEq] at h; rw [← h]; simp [cyclesCompleted, cyclesLeft, hloc]
    · simp at h
  | emit =>
    simp only [step] at h
    split at h
    · rename_i hloc
      simp only [Option.some.injEq] at h; rw [← h]; simp [cyclesCompleted, cyclesLeft, hloc]
    · simp at h
  | selectTick => exact absurd rfl hsel
  | selectDone =>
    simp only [step] at h
    split at h
    · rename_i hloc
      simp only [Option.some.injEq] at h; rw [← h]
      simp [cyclesCompleted, cyclesLeft, hloc.1]
    · simp at h

theorem exec_cyclesLeft :
    ∀ (es : List Event) (s s' : LoopState), exec s es = some s' → Event.selectTick ∉ es →
      cyclesCompleted es + cyclesLeft s'.loc ≤ cyclesLeft s.loc
  | [], s, s', h, _ => by
    simp only [exec, Option.some.injEq] at h
    rw [← h]
    simp [cyclesCompleted]
  | e :: es, s, s', h, hsel => by
    simp only [exec] at h
    cases hs : step s e with
    | none => rw [hs] at h; simp at h
    | some s₁ =>
      rw [hs] at h
      have he : e ≠ .selectTick := fun heq => hsel (by simp [heq])
      have hes : Event.selectTick ∉ es := fun hmem => hsel (List.mem_cons_of_mem _ hmem)
      have h1 := step_cyclesLeft s s₁ e hs he
      have h2 := exec_cyclesLeft es s₁ s' h hes
      have hcount : cyclesCompleted (e :: es) = cyclesCompleted [e] + cyclesCompleted es := by
        simp only [cyclesCompleted, List.count_cons, List.count_nil]
        omega
      omega

theorem exec_cancelled :
    ∀ (es : List Event) (s s' : LoopState), exec s es = some s' → s.cancelled = true →
      s'.cancelled = true
  | [], s, s', h, hc => by
    simp only [exec, Option.some.injEq] at h
    rw [← h]
    exact hc
  | e :: es, s, s', h, hc => by
    simp only [exec] at h
    cases hs : step s e with
    | none => rw [hs] at h; simp at h
    | some s₁ =>
      rw [hs] at h
      exact exec_cancelled es s₁ s' h (step_cancelled s s₁ e hs hc)

/-- C10, as stated, fails: after the cancellation `Run` can go through the
events of `raceEvents`, in which the `select` finds a tick and the cancellation
both ready and takes the tick; two cycles complete and two batches are sent. -/
theorem cancellation_counterexample :
    (Run sampleState (.cancel :: raceEvents)).map
        (fun s => (s.loc, s.cancelled, s.out.length)) = some (.wait, true, 2) ∧
    cancelledStart.cancelled = true ∧
    (exec cancelledStart raceEvents).map (fun s => (s.loc, s.cancelled, s.out.length)) =
      some (.wait, true, 2) ∧
    cyclesCompleted raceEvents = 2 ∧
    ¬ ∀ (s : LoopState) (es : List Event), s.cancelled = true → (exec s es).isSome = true →
        cyclesCompleted es ≤ 1 := by
  refine ⟨by decide, rfl, by decide, by decide, ?_⟩
  intro h
  have := h cancelledStart raceEvents rfl (by decide)
  revert this
  decide

/-- C10, amended: once the context is cancelled, along every run of the machine
in which the `select` takes no tick at most one more cycle completes, the
context stays cancelled, and when the run stands at the `select` the return is
the step of the loop that leads on, to `stopped`. -/
theorem cancellation_bound (s : LoopState) (es : List Event)
    (hc : s.cancelled = true) (hrun : (exec s es).isSome = true)
    (hsel : Event.selectTick ∉ es) :
    cyclesCompleted es ≤ 1 ∧
    ∀ s' : LoopState, exec s es = some s' →
      s'.cancelled = true ∧
      (s'.loc = .wait → (step s' .selectDone).map (fun t => t.loc) = some .stopped) := by
  obtain ⟨s', hs'⟩ := Option.isSome_iff_exists.1 hrun
  have hle := exec_cyclesLeft es s s' hs' hsel
  have hpot : cyclesLeft s.loc ≤ 1 := by
    cases s.loc <;> simp [cyclesLeft]
  refine ⟨by omega, ?_⟩
  intro t ht
  have hct := exec_cancelled es s t ht hc
  refine ⟨hct, ?_⟩
  intro hloc
  simp [step, hloc, hct]

/-- C10 amended, on a run: with the context cancelled, one cycle completes, the
`select` takes the cancellation, and the loop is stopped. -/
theorem cancellation_bound_witness :
    cancelledStart.cancelled = true ∧
    (exec cancelledStart
      [.respond (.body (okBody sampleResult)), .diff, .emit, .selectDone]).isSome = true ∧
    Event.selectTick ∉
      ([.respond (.body (okBody sampleResult)), .diff, .emit, .selectDone] : List Event) ∧
    (exec cancelledStart
      [.respond (.body (okBody sampleResult)), .diff, .emit, .selectDone]).map
        (fun s => s.loc) = some .stopped ∧
    cyclesCompleted [.respond (.body (okBody sampleResult)), .diff, .emit, .selectDone] ≤ 1 :=
  ⟨rfl, by decide, by decide, by decide,
    (cancellation_bound cancelledStart
      [.respond (.body (okBody sampleResult)), .diff, .emit, .selectDone]
      rfl (by decide) (by decide)).1⟩

end CustomSD
